import Mathlib

/-!
Verification of the multithreading downloader (src/Downloader.py).

The development shallowly embeds the parts of the program that the claims
are about:

* `page_dispatcher` embeds `Downloader.__page_dispatcher` (lines 63-82):
  the byte-range partitioner.  All quantities occurring in that loop are
  non-negative Python integers once `content_size ≥ 1`, so natural numbers
  model them faithfully; derived quantities that can be negative
  (`page_size`, the logger's downloaded-size formula) are computed in `Int`.
* `download_go` / `download_run` embed the body of `Downloader.__download`
  (lines 104-128): the per-segment fetch loop, the positioned writes, the
  cursor updates, the snapshot publications to the logger queue, and the
  `except requests.RequestException` handler.  The sequence of chunk
  arrivals and exception points of one segment is modelled by a list of
  `FetchEvent`s; the `with self.__file_lock` block is modelled as one
  atomic write record.
* `thread_downloaded_size` embeds the per-thread downloaded-size formula of
  `Logger.__log_threadinfo` (lines 199-200).
* `start_return_value` embeds the value returned by `Downloader.start`
  (lines 130-162): the Python method has no return statement, so it
  returns None, modelled as `Unit`.
-/

/-- A page as produced by `Downloader.__page_dispatcher`: the dictionary
with keys `start_pos` and `end_pos` (an inclusive byte range). -/
structure Page where
  start_pos : Nat
  end_pos : Nat
  deriving DecidableEq

/-- The `while start_pos + basic_page_size < content_size` loop of
`Downloader.__page_dispatcher` (lines 71-81), together with the
unconditional final `pages.append` that follows it: while the guard holds
a page `[start_pos, start_pos + basic_page_size]` is emitted and
`start_pos` advances by `basic_page_size + 1`; when the guard fails the
final page `[start_pos, content_size - 1]` is appended. -/
def dispatch_loop (content_size basic_page_size start_pos : Nat) : List Page :=
  if h : start_pos + basic_page_size < content_size then
    ⟨start_pos, start_pos + basic_page_size⟩ ::
      dispatch_loop content_size basic_page_size (start_pos + basic_page_size + 1)
  else
    [⟨start_pos, content_size - 1⟩]
termination_by content_size - start_pos
decreasing_by omega

/-- `Downloader.__page_dispatcher` (lines 63-82): computes
`basic_page_size = content_size // threads_num` and runs the dispatch loop
from `start_pos = 0`. -/
def page_dispatcher (content_size threads_num : Nat) : List Page :=
  dispatch_loop content_size (content_size / threads_num) 0

/-- The union of the inclusive byte ranges of a list of pages. -/
def pagesUnion (ps : List Page) : Finset Nat :=
  ps.foldr (fun p s => Finset.Icc p.start_pos p.end_pos ∪ s) ∅

theorem pages_1000_3 : page_dispatcher 1000 3 = [⟨0, 333⟩, ⟨334, 667⟩, ⟨668, 999⟩] := by
  simp [page_dispatcher, dispatch_loop]

theorem pages_10_20 : page_dispatcher 10 20 =
    [⟨0, 0⟩, ⟨1, 1⟩, ⟨2, 2⟩, ⟨3, 3⟩, ⟨4, 4⟩, ⟨5, 5⟩, ⟨6, 6⟩, ⟨7, 7⟩,
     ⟨8, 8⟩, ⟨9, 9⟩, ⟨10, 9⟩] := by
  simp [page_dispatcher, dispatch_loop]

theorem dispatch_loop_start_le (L b : Nat) :
    ∀ s, ∀ q ∈ dispatch_loop L b s, s ≤ q.start_pos := by
  intro s
  induction s using dispatch_loop.induct L b with
  | case1 s h ih =>
      intro q hq
      rw [dispatch_loop.eq_def, dif_pos h] at hq
      rcases List.mem_cons.mp hq with rfl | hq
      · exact le_refl _
      · exact le_trans (by omega) (ih q hq)
  | case2 s h =>
      intro q hq
      rw [dispatch_loop.eq_def, dif_neg h] at hq
      rcases List.mem_singleton.mp hq with rfl
      exact le_refl _

theorem dispatch_loop_pairwise (L b : Nat) :
    ∀ s, (dispatch_loop L b s).Pairwise
      (fun p q => p.end_pos < q.start_pos ∧ p.start_pos < q.start_pos) := by
  intro s
  induction s using dispatch_loop.induct L b with
  | case1 s h ih =>
      rw [dispatch_loop.eq_def, dif_pos h]
      refine List.Pairwise.cons (fun q hq => ?_) ih
      have hs := dispatch_loop_start_le L b (s + b + 1) q hq
      exact ⟨show s + b < q.start_pos by omega, show s < q.start_pos by omega⟩
  | case2 s h =>
      rw [dispatch_loop.eq_def, dif_neg h]
      exact List.pairwise_singleton _ _

theorem dispatch_loop_union (L b : Nat) :
    ∀ s, pagesUnion (dispatch_loop L b s) = Finset.Icc s (L - 1) := by
  intro s
  induction s using dispatch_loop.induct L b with
  | case1 s h ih =>
      rw [dispatch_loop.eq_def, dif_pos h]
      simp only [pagesUnion, List.foldr_cons] at ih ⊢
      rw [ih]
      ext x
      simp only [Finset.mem_union, Finset.mem_Icc]
      omega
  | case2 s h =>
      rw [dispatch_loop.eq_def, dif_neg h]
      simp [pagesUnion]

theorem dispatch_loop_length_pos (L b : Nat) :
    ∀ s, 1 ≤ (dispatch_loop L b s).length := by
  intro s
  induction s using dispatch_loop.induct L b with
  | case1 s h ih =>
      rw [dispatch_loop.eq_def, dif_pos h]
      simp
  | case2 s h =>
      rw [dispatch_loop.eq_def, dif_neg h]
      simp

theorem dispatch_loop_length_bound (L b : Nat) :
    ∀ s, s ≤ L → ∃ m, (dispatch_loop L b s).length = m + 1 ∧ (b + 1) * m + s ≤ L := by
  intro s
  induction s using dispatch_loop.induct L b with
  | case1 s h ih =>
      intro _
      obtain ⟨m, hlen, hle⟩ := ih (by omega)
      refine ⟨m + 1, ?_, ?_⟩
      · rw [dispatch_loop.eq_def, dif_pos h]
        simp [hlen]
      · rw [Nat.mul_succ]
        omega
  | case2 s h =>
      intro hs
      refine ⟨0, ?_, by omega⟩
      rw [dispatch_loop.eq_def, dif_neg h]
      rfl

theorem page_dispatcher_length_le (L w : Nat) (hw : 1 ≤ w) :
    (page_dispatcher L w).length ≤ w := by
  obtain ⟨m, hlen, hle⟩ := dispatch_loop_length_bound L (L / w) 0 (Nat.zero_le L)
  have hd : page_dispatcher L w = dispatch_loop L (L / w) 0 := rfl
  rw [hd, hlen]
  by_contra hcon
  have hwm : w ≤ m := by omega
  have h1 : (L / w + 1) * w ≤ (L / w + 1) * m := mul_le_mul_left' hwm _
  have h2 := Nat.div_add_mod L w
  have h3 := Nat.mod_lt L (show 0 < w by omega)
  have h4 : (L / w + 1) * w = w * (L / w) + w := by ring
  omega

theorem dispatch_loop_sum_sizes (L b : Nat) (hL : 1 ≤ L) :
    ∀ s, ((dispatch_loop L b s).map
      (fun p => (p.end_pos : Int) - (p.start_pos : Int) + 1)).sum = (L : Int) - (s : Int) := by
  intro s
  induction s using dispatch_loop.induct L b with
  | case1 s h ih =>
      rw [dispatch_loop.eq_def, dif_pos h]
      simp only [List.map_cons, List.sum_cons, ih]
      push_cast
      ring
  | case2 s h =>
      rw [dispatch_loop.eq_def, dif_neg h]
      simp only [List.map_cons, List.map_nil, List.sum_cons, List.sum_nil]
      omega

/-- C1: for every `contentLength ≥ 1` and `workerCount ≥ 1` the ranges
returned by `Downloader.__page_dispatcher` are pairwise non-overlapping
(as inclusive intervals of byte positions), sorted in ascending order of
`start_pos`, and the union of the inclusive ranges is exactly
`[0, contentLength - 1]`; concretely, `contentLength = 1000` and
`workerCount = 3` yield the pages `[0,333], [334,667], [668,999]`. -/
theorem partition_coverage (L w : Nat) (hL : 1 ≤ L) (hw : 1 ≤ w) :
    ((page_dispatcher L w).Pairwise fun p q =>
        Disjoint (Finset.Icc p.start_pos p.end_pos) (Finset.Icc q.start_pos q.end_pos)) ∧
    ((page_dispatcher L w).Pairwise fun p q => p.start_pos < q.start_pos) ∧
    pagesUnion (page_dispatcher L w) = Finset.Icc 0 (L - 1) ∧
    page_dispatcher 1000 3 = [⟨0, 333⟩, ⟨334, 667⟩, ⟨668, 999⟩] := by
  refine ⟨?_, ?_, dispatch_loop_union L (L / w) 0, pages_1000_3⟩
  · refine (dispatch_loop_pairwise L (L / w) 0).imp fun hpq => ?_
    refine Finset.disjoint_left.mpr fun x hx1 hx2 => ?_
    rw [Finset.mem_Icc] at hx1 hx2
    omega
  · exact (dispatch_loop_pairwise L (L / w) 0).imp fun hpq => hpq.2

theorem partition_coverage_witness :
    (1 ≤ 1000 ∧ 1 ≤ 3) ∧
    (((page_dispatcher 1000 3).Pairwise fun p q =>
        Disjoint (Finset.Icc p.start_pos p.end_pos) (Finset.Icc q.start_pos q.end_pos)) ∧
    ((page_dispatcher 1000 3).Pairwise fun p q => p.start_pos < q.start_pos) ∧
    pagesUnion (page_dispatcher 1000 3) = Finset.Icc 0 (1000 - 1) ∧
    page_dispatcher 1000 3 = [⟨0, 333⟩, ⟨334, 667⟩, ⟨668, 999⟩]) :=
  ⟨⟨by omega, by omega⟩, partition_coverage 1000 3 (by omega) (by omega)⟩

/-- C2: the claim that every emitted range satisfies `start_pos ≤ end_pos`
and that at most `contentLength` ranges are emitted fails on the code: for
`contentLength = 10` and `workerCount = 20` the dispatcher emits eleven
ranges (one more than `contentLength`), the last being the degenerate
`[10, 9]` with `start_pos > end_pos`, because the final page is appended
unconditionally after the loop. -/
theorem partition_degenerate_range_eval :
    page_dispatcher 10 20 =
      [⟨0, 0⟩, ⟨1, 1⟩, ⟨2, 2⟩, ⟨3, 3⟩, ⟨4, 4⟩, ⟨5, 5⟩, ⟨6, 6⟩, ⟨7, 7⟩,
       ⟨8, 8⟩, ⟨9, 9⟩, ⟨10, 9⟩] ∧
    (page_dispatcher 10 20).length = 11 ∧
    ∃ p ∈ page_dispatcher 10 20, p.end_pos < p.start_pos := by
  refine ⟨pages_10_20, by rw [pages_10_20]; rfl, ⟨10, 9⟩, ?_, by decide⟩
  rw [pages_10_20]
  simp

/-- C3: for every `contentLength ≥ 1` and `workerCount ≥ 1` the number of
ranges returned by `Downloader.__page_dispatcher` is at least 1 and at
most `workerCount`. -/
theorem partition_boundedness (L w : Nat) (hL : 1 ≤ L) (hw : 1 ≤ w) :
    1 ≤ (page_dispatcher L w).length ∧ (page_dispatcher L w).length ≤ w :=
  ⟨dispatch_loop_length_pos L (L / w) 0, page_dispatcher_length_le L w hw⟩

theorem partition_boundedness_witness :
    (1 ≤ 10 ∧ 1 ≤ 20) ∧
    (1 ≤ (page_dispatcher 10 20).length ∧ (page_dispatcher 10 20).length ≤ 20) :=
  ⟨⟨by omega, by omega⟩, partition_boundedness 10 20 (by omega) (by omega)⟩

/-- One event seen by the fetch loop of `Downloader.__download`
(lines 112-128): either a chunk of bytes arrives from
`response.iter_content` and is written successfully, or the file
seek/write raises a local I/O error (not a `requests` exception), or the
HTTP machinery raises a `requests.RequestException`. -/
inductive FetchEvent where
  | chunk (data : List Nat)
  | writeFail
  | netError
  deriving DecidableEq

/-- The part of the shared `__threads_status` entry for one thread that a
`__msg_queue.put` publishes about that thread: the current cursor
(`page["start_pos"]` after mutation), the fixed `page["end_pos"]`, and the
`status` field. -/
structure Snapshot where
  cursor : Nat
  end_pos : Nat
  status : Nat
  deriving DecidableEq

/-- How one execution of `Downloader.__download` ends: the `for` loop over
`iter_content` is exhausted normally, or a `requests.RequestException` is
caught by the `except` clause, or some other exception (for example an
`IOError` raised by `file.seek`/`file.write`) escapes the method uncaught,
because the `except` clause only matches `requests.RequestException`. -/
inductive FetchOutcome where
  | completed
  | caughtNet
  | escaped
  deriving DecidableEq

/-- The final observable state of one segment after `Downloader.__download`
ran over a given event sequence: the final cursor (`page["start_pos"]`),
the final `status` field (0 = running/ok, 1 = failed, set only by the
`except` handler), the positioned writes performed on the shared file
(offset paired with the data written there, in order), the snapshots put
on the logger queue (in order), and how the execution ended. -/
structure FetchState where
  cursor : Nat
  status : Nat
  writes : List (Nat × List Nat)
  pubs : List Snapshot
  outcome : FetchOutcome
  deriving DecidableEq

/-- The body of `Downloader.__download` (lines 104-128) over an event
list.  For a `chunk data` event the code seeks to the current
`page["start_pos"]` and writes `data` there (under `self.__file_lock`,
modelled as one atomic write record), then advances
`page["start_pos"] += len(data)` and puts the updated status snapshot on
the logger queue.  A `writeFail` event aborts the method with the
exception escaping (only `requests.RequestException` is caught), leaving
`status` untouched.  A `netError` event enters the `except` handler,
which first puts the status snapshot on the queue and only then sets
`status` to 1. -/
def download_go (end_pos cursor status : Nat) : List FetchEvent → FetchState
  | [] => ⟨cursor, status, [], [], FetchOutcome.completed⟩
  | FetchEvent.chunk data :: rest =>
      let r := download_go end_pos (cursor + data.length) status rest
      ⟨r.cursor, r.status, (cursor, data) :: r.writes,
        ⟨cursor + data.length, end_pos, status⟩ :: r.pubs, r.outcome⟩
  | FetchEvent.writeFail :: _ => ⟨cursor, status, [], [], FetchOutcome.escaped⟩
  | FetchEvent.netError :: _ =>
      ⟨cursor, 1, [], [⟨cursor, end_pos, status⟩], FetchOutcome.caughtNet⟩

/-- `Downloader.__download` run on a fresh page: the thread's status entry
is registered with `status = 0` (line 102) and the cursor starts at the
page's `start_pos`. -/
def download_run (page : Page) (events : List FetchEvent) : FetchState :=
  download_go page.end_pos page.start_pos 0 events

/-- The positioned writes a segment is expected to perform when the chunks
`datas` arrive in order starting at cursor position `cursor`: each chunk
is written at the cursor, which then advances by the chunk's length. -/
def expectedWrites (cursor : Nat) : List (List Nat) → List (Nat × List Nat)
  | [] => []
  | d :: ds => (cursor, d) :: expectedWrites (cursor + d.length) ds

/-- The snapshots a segment is expected to publish while the chunks
`datas` arrive in order: after each chunk the advanced cursor is
published, with the running status 0. -/
def expectedPubs (end_pos cursor : Nat) : List (List Nat) → List Snapshot
  | [] => []
  | d :: ds => ⟨cursor + d.length, end_pos, 0⟩ :: expectedPubs end_pos (cursor + d.length) ds

/-- The `page_size` value registered for a thread in `__threads_status`
(line 100): `page["end_pos"] - page["start_pos"]` of the original page,
computed over the integers (it is -1 for a degenerate page). -/
def page_size_field (p : Page) : Int :=
  (p.end_pos : Int) - (p.start_pos : Int)

/-- The per-thread downloaded size computed by `Logger.__log_threadinfo`
(lines 199-200): `page_size - (page["end_pos"] - page["start_pos"])`,
where `page["start_pos"]` is the thread's current cursor. -/
def thread_downloaded_size (page_size : Int) (cursor end_pos : Nat) : Int :=
  page_size - ((end_pos : Int) - (cursor : Int))

/-- The downloaded size the logger attributes to a segment after the
first `k` chunks of `datas` have been processed by
`Downloader.__download` on page `p`. -/
def transferredAfter (p : Page) (datas : List (List Nat)) (k : Nat) : Int :=
  thread_downloaded_size (page_size_field p)
    (download_run p ((datas.take k).map FetchEvent.chunk)).cursor p.end_pos

theorem download_go_chunks (e c : Nat) (datas : List (List Nat)) :
    download_go e c 0 (datas.map FetchEvent.chunk) =
      ⟨c + (datas.map List.length).sum, 0, expectedWrites c datas,
        expectedPubs e c datas, FetchOutcome.completed⟩ := by
  induction datas generalizing c with
  | nil => simp [download_go, expectedWrites, expectedPubs]
  | cons d ds ih =>
      simp only [List.map_cons, download_go, ih, expectedWrites, expectedPubs,
        List.sum_cons]
      simp [Nat.add_assoc]

theorem download_go_chunks_net (e c : Nat) (datas : List (List Nat))
    (rest : List FetchEvent) :
    download_go e c 0 (datas.map FetchEvent.chunk ++ FetchEvent.netError :: rest) =
      ⟨c + (datas.map List.length).sum, 1, expectedWrites c datas,
        expectedPubs e c datas ++ [⟨c + (datas.map List.length).sum, e, 0⟩],
        FetchOutcome.caughtNet⟩ := by
  induction datas generalizing c with
  | nil => simp [download_go, expectedWrites, expectedPubs]
  | cons d ds ih =>
      simp only [List.map_cons, List.cons_append, download_go, ih, expectedWrites,
        expectedPubs, List.sum_cons]
      simp [ih, Nat.add_assoc]

theorem download_go_chunks_writeFail (e c : Nat) (datas : List (List Nat))
    (rest : List FetchEvent) :
    download_go e c 0 (datas.map FetchEvent.chunk ++ FetchEvent.writeFail :: rest) =
      ⟨c + (datas.map List.length).sum, 0, expectedWrites c datas,
        expectedPubs e c datas, FetchOutcome.escaped⟩ := by
  induction datas generalizing c with
  | nil => simp [download_go, expectedWrites, expectedPubs]
  | cons d ds ih =>
      simp only [List.map_cons, List.cons_append, download_go, ih, expectedWrites,
        expectedPubs, List.sum_cons]
      simp [ih, Nat.add_assoc]

theorem expectedWrites_get (datas : List (List Nat)) :
    ∀ (c i : Nat) (h1 : i < (expectedWrites c datas).length) (h2 : i < datas.length),
      (expectedWrites c datas).get ⟨i, h1⟩ =
        (c + ((datas.take i).map List.length).sum, datas.get ⟨i, h2⟩) := by
  induction datas with
  | nil => intro c i h1 h2; simp at h2
  | cons d ds ih =>
      intro c i h1 h2
      cases i with
      | zero => simp [expectedWrites]
      | succ j =>
          have h1a : j < (expectedWrites (c + d.length) ds).length := by
            simp only [expectedWrites, List.length_cons] at h1
            omega
          have h2a : j < ds.length := by
            simp only [List.length_cons] at h2
            omega
          have hstep : (expectedWrites c (d :: ds)).get ⟨j + 1, h1⟩ =
              (expectedWrites (c + d.length) ds).get ⟨j, h1a⟩ := rfl
          rw [hstep, ih (c + d.length) j h1a h2a]
          simp [Nat.add_assoc]

theorem sum_map_length_take_le (l : List (List Nat)) (k j : Nat) (hk : k ≤ j) :
    ((l.take k).map List.length).sum ≤ ((l.take j).map List.length).sum := by
  have h : l.take j = l.take k ++ (l.drop k).take (j - k) := by
    rw [← List.take_add, Nat.add_sub_cancel' hk]
  rw [h, List.map_append, List.sum_append]
  exact Nat.le_add_right _ _

theorem sum_map_length_take_le_total (l : List (List Nat)) (k : Nat) :
    ((l.take k).map List.length).sum ≤ (l.map List.length).sum := by
  conv_rhs => rw [← List.take_append_drop k l]
  rw [List.map_append, List.sum_append]
  exact Nat.le_add_right _ _

theorem transferredAfter_eq (p : Page) (datas : List (List Nat)) (k : Nat) :
    transferredAfter p datas k = ((((datas.take k).map List.length).sum : Nat) : Int) := by
  simp only [transferredAfter, download_run, download_go_chunks, thread_downloaded_size,
    page_size_field]
  push_cast
  ring

theorem expectedPubs_status (e : Nat) (datas : List (List Nat)) :
    ∀ c, ∀ q ∈ expectedPubs e c datas, q.status = 0 := by
  induction datas with
  | nil => intro c q hq; simp [expectedPubs] at hq
  | cons d ds ih =>
      intro c q hq
      simp only [expectedPubs] at hq
      rcases List.mem_cons.mp hq with rfl | hq
      · rfl
      · exact ih (c + d.length) q hq

theorem expectedPubs_length (e : Nat) (datas : List (List Nat)) :
    ∀ c, (expectedPubs e c datas).length = datas.length := by
  induction datas with
  | nil => intro c; rfl
  | cons d ds ih => intro c; simp [expectedPubs, ih]

/-- C4: for each chunk received by `Downloader.__download`, the chunk is
written at the segment's current cursor (which starts at the page's
original `start_pos`), and the cursor is advanced by the chunk's length
only after the write; consequently the i-th chunk of a segment is written
at offset `start_pos + (sum of the lengths of chunks 0..i-1)`, so the
segment's bytes occupy consecutive offsets from its original start.  The
seek-and-write pair, performed under the single shared `__file_lock`, is
modelled as one atomic write record. -/
theorem segment_write_offsets (p : Page) (datas : List (List Nat)) :
    (download_run p (datas.map FetchEvent.chunk)).writes = expectedWrites p.start_pos datas ∧
    ∀ (i : Nat) (h1 : i < (expectedWrites p.start_pos datas).length) (h2 : i < datas.length),
      (expectedWrites p.start_pos datas).get ⟨i, h1⟩ =
        (p.start_pos + ((datas.take i).map List.length).sum, datas.get ⟨i, h2⟩) := by
  constructor
  · rw [download_run, download_go_chunks]
  · exact fun i h1 h2 => expectedWrites_get datas p.start_pos i h1 h2

theorem segment_write_offsets_witness :
    (expectedWrites (Page.mk 0 9).start_pos [[5], [6, 7]]).get ⟨1, by decide⟩ =
      ((Page.mk 0 9).start_pos + ((([[5], [6, 7]] : List (List Nat)).take 1).map List.length).sum,
        ([[5], [6, 7]] : List (List Nat)).get ⟨1, by decide⟩) :=
  (segment_write_offsets ⟨0, 9⟩ [[5], [6, 7]]).2 1 (by decide) (by decide)

/-- C5: for a single segment, the downloaded size the logger computes from
the shrinking window (`page_size - (end_pos - start_pos)`) is
non-decreasing over the sequence of chunk updates, and - provided the
ranged response delivers no more bytes than the segment's inclusive range
holds - it never exceeds the segment's original size
`end_pos - start_pos + 1`. -/
theorem segment_progress_monotone (p : Page) (datas : List (List Nat)) :
    (∀ k j, k ≤ j → transferredAfter p datas k ≤ transferredAfter p datas j) ∧
    (((datas.map List.length).sum : Int) ≤ (p.end_pos : Int) - (p.start_pos : Int) + 1 →
      ∀ k, transferredAfter p datas k ≤ (p.end_pos : Int) - (p.start_pos : Int) + 1) := by
  constructor
  · intro k j hkj
    rw [transferredAfter_eq, transferredAfter_eq]
    exact_mod_cast sum_map_length_take_le datas k j hkj
  · intro hbound k
    rw [transferredAfter_eq]
    refine le_trans ?_ hbound
    exact_mod_cast sum_map_length_take_le_total datas k

theorem segment_progress_monotone_witness :
    ((([[1, 2], [3]] : List (List Nat)).map List.length).sum : Int) ≤
        ((Page.mk 0 9).end_pos : Int) - ((Page.mk 0 9).start_pos : Int) + 1 ∧
    transferredAfter ⟨0, 9⟩ [[1, 2], [3]] 2 ≤
      ((Page.mk 0 9).end_pos : Int) - ((Page.mk 0 9).start_pos : Int) + 1 :=
  ⟨by decide, (segment_progress_monotone ⟨0, 9⟩ [[1, 2], [3]]).2 (by decide) 2⟩

/-- C7: a `requests.RequestException` (network, timeout or protocol error)
at any point of a segment's fetch sets that segment's status to 1
(Failed), stops the consumption of the stream (events after the error
produce no further writes), and is swallowed by the `except` clause rather
than escaping the segment's execution; the model is per segment, so no
other segment's run is affected. -/
theorem segment_net_error_isolated (p : Page) (datas : List (List Nat))
    (rest : List FetchEvent) :
    (download_run p (datas.map FetchEvent.chunk ++ FetchEvent.netError :: rest)).status = 1 ∧
    (download_run p (datas.map FetchEvent.chunk ++ FetchEvent.netError :: rest)).outcome =
      FetchOutcome.caughtNet ∧
    (download_run p (datas.map FetchEvent.chunk ++ FetchEvent.netError :: rest)).writes =
      expectedWrites p.start_pos datas := by
  rw [download_run, download_go_chunks_net]
  exact ⟨rfl, rfl, rfl⟩

/-- C8 counterexample: a local I/O failure during the file seek/write is
not treated like a network error: at the concrete input (page `[0, 9]`,
first write raising the I/O error) the segment's status is not set to 1,
and the exception escapes the segment's execution instead of being
swallowed. -/
theorem segment_io_error_counterexample :
    ¬ (download_run ⟨0, 9⟩ [FetchEvent.writeFail]).status = 1 ∧
    (download_run ⟨0, 9⟩ [FetchEvent.writeFail]).outcome = FetchOutcome.escaped := by
  decide

/-- C8 amended: a local I/O error during a segment's file seek/write is
not caught by the `except requests.RequestException` clause: the segment
stops consuming the stream, its status stays 0 (never set to 1/Failed),
and the exception escapes `__download` (it is contained only by the
thread runtime, so the failure is still isolated to that segment). -/
theorem segment_io_error_escapes (p : Page) (datas : List (List Nat))
    (rest : List FetchEvent) :
    (download_run p (datas.map FetchEvent.chunk ++ FetchEvent.writeFail :: rest)).status = 0 ∧
    (download_run p (datas.map FetchEvent.chunk ++ FetchEvent.writeFail :: rest)).outcome =
      FetchOutcome.escaped ∧
    (download_run p (datas.map FetchEvent.chunk ++ FetchEvent.writeFail :: rest)).writes =
      expectedWrites p.start_pos datas := by
  rw [download_run, download_go_chunks_writeFail]
  exact ⟨rfl, rfl, rfl⟩

/-- C10: the `except` handler of `Downloader.__download` puts the status
snapshot on the logger queue before setting the failing segment's status
field to 1, and the segment publishes nothing afterwards: every snapshot
the failing segment itself publishes (the per-chunk ones and the final one
from the handler) carries status 0, even though the segment's final status
is 1. -/
theorem handler_publishes_before_failure (p : Page) (datas : List (List Nat)) :
    (∀ q ∈ (download_run p (datas.map FetchEvent.chunk ++ [FetchEvent.netError])).pubs,
      q.status = 0) ∧
    (download_run p (datas.map FetchEvent.chunk ++ [FetchEvent.netError])).pubs.length =
      datas.length + 1 ∧
    (download_run p (datas.map FetchEvent.chunk ++ [FetchEvent.netError])).status = 1 := by
  rw [download_run, download_go_chunks_net]
  refine ⟨?_, ?_, rfl⟩
  · intro q hq
    rcases List.mem_append.mp hq with hq | hq
    · exact expectedPubs_status p.end_pos datas p.start_pos q hq
    · rcases List.mem_singleton.mp hq with rfl
      rfl
  · simp [expectedPubs_length]

/-- C6: if every segment has transferred exactly its full inclusive byte
range - its cursor `start_pos` has advanced just past its `end_pos` - then
the aggregate downloaded size obtained by summing the logger's per-thread
formula `page_size - (end_pos - start_pos)` over all segments of the
dispatcher equals `contentLength` exactly. -/
theorem aggregate_conservation (L w : Nat) (hL : 1 ≤ L) (hw : 1 ≤ w)
    (cur : Page → Nat)
    (hfin : ∀ p ∈ page_dispatcher L w, cur p = p.end_pos + 1) :
    ((page_dispatcher L w).map
      (fun p => thread_downloaded_size (page_size_field p) (cur p) p.end_pos)).sum =
      (L : Int) := by
  have hmap : (page_dispatcher L w).map
      (fun p => thread_downloaded_size (page_size_field p) (cur p) p.end_pos) =
      (page_dispatcher L w).map (fun p => (p.end_pos : Int) - (p.start_pos : Int) + 1) := by
    refine List.map_congr_left fun p hp => ?_
    rw [hfin p hp, thread_downloaded_size, page_size_field]
    push_cast
    ring
  rw [hmap]
  have h := dispatch_loop_sum_sizes L (L / w) hL 0
  simpa using h

theorem aggregate_conservation_witness :
    ((page_dispatcher 1000 3).map
      (fun p => thread_downloaded_size (page_size_field p) (p.end_pos + 1) p.end_pos)).sum =
      ((1000 : Nat) : Int) :=
  aggregate_conservation 1000 3 (by omega) (by omega) (fun p => p.end_pos + 1)
    (fun p _ => rfl)

/-- The outcome field of the DownloadResult that the specification
attributes to `start`.  Modelled from the spec: the outcome is Success
exactly when every segment ended Finished (its fetch loop ran to
completion and its cursor advanced past `end_pos`); otherwise it is
PartialFailure (constructor `fail`). -/
inductive Outcome where
  | success
  | fail
  deriving DecidableEq

/-- Modelled from the spec: Success only if every SegmentState ended
Finished; any other ending makes the overall outcome PartialFailure.  A
segment is given as its page paired with its final fetch state. -/
def spec_outcome (segs : List (Page × FetchState)) : Outcome :=
  if ∀ s ∈ segs, s.2.outcome = FetchOutcome.completed ∧ s.1.end_pos < s.2.cursor then
    Outcome.success
  else Outcome.fail

/-- `Downloader.start` (lines 130-162) has no return statement: after
joining all segment threads it prints the elapsed span, resets the status
dictionary and returns None, whatever the final segment states are.  Its
return value is modelled as `Unit`. -/
def start_return_value (segs : List (Page × FetchState)) : Unit := ()

/-- C9 counterexample: no reading of `start`'s return value can recover
the outcome the claim says it carries: the return value is None for every
final segment configuration, while the claimed outcome differs between a
run where every segment finished (the empty job) and a run with a failed
segment.  So `start` does not return a DownloadResult whose outcome is
Success exactly when all segments finished. -/
theorem start_returns_no_outcome_counterexample :
    ¬ ∃ f : Unit → Outcome, ∀ segs : List (Page × FetchState),
        f (start_return_value segs) = spec_outcome segs := by
  rintro ⟨f, hf⟩
  have h1 := hf []
  have h2 := hf [(⟨0, 1⟩, ⟨0, 1, [], [], FetchOutcome.caughtNet⟩)]
  have e1 : spec_outcome [] = Outcome.success := by decide
  have e2 : spec_outcome [(⟨0, 1⟩, ⟨0, 1, [], [], FetchOutcome.caughtNet⟩)] = Outcome.fail := by
    decide
  simp only [start_return_value] at h1 h2
  rw [e1] at h1
  rw [e2] at h2
  exact absurd (h1.symm.trans h2) (by decide)

/-- C9 amended: `start` returns synchronously, but its return value is
None (Unit): it carries neither an elapsed duration (the span is only
printed) nor an outcome, and in particular it does not distinguish runs
with failed segments from fully finished runs. -/
theorem start_returns_unit (segs segsB : List (Page × FetchState)) :
    start_return_value segs = start_return_value segsB := rfl
